import Mathlib

/-!
Verification development for the `summarize-workflow` pipeline of the
summarizer tutorial application.

The pipeline (src/mastra/workflows/summarizeWorkflow.ts) has four stages,
`fetch-page`, `summarizer`, `critique` and `conditional-save`, with three
mapping functions between them.  The stage bodies and mapping functions are
translated below directly from the TypeScript source.  External collaborators
(the HTTP fetch, the summarizer agent, the critic agent, the clock used by
`Date.now()`) are modelled as an explicit environment `Env`; the outcome of
`JSON.parse` on the critic's response text is modelled by the sum type
`CriticResponse`.  JavaScript numbers are modelled by `ℚ` (no comparison made
by this code distinguishes rationals from IEEE doubles), JavaScript strings
by `String`/`List Char`, and the JavaScript regular expressions used by the
fetch stage are implemented character by character on `List Char` following
the semantics of the concrete patterns in the source.  Recursions that are
not structural use a fuel argument initialised with the length of the list;
every recursive call strictly shrinks the list while fuel shrinks by one, so
the fuel is never exhausted.
-/

/-- ASCII lower-casing of one character, as `String.prototype.toLowerCase`
acts on the ASCII range (the only range the patterns below need). -/
def lcChar (c : Char) : Char :=
  if 'A' ≤ c ∧ c ≤ 'Z' then Char.ofNat (c.toNat + 32) else c

/-- The JavaScript `\s` character class restricted to the ASCII whitespace
characters (space, tab, line feed, carriage return, vertical tab, form feed). -/
def isJsWs (c : Char) : Bool :=
  c = ' ' || c = '\t' || c = '\n' || c = '\r' || c = '\x0b' || c = '\x0c'

/-- Case-insensitive pattern test: `pat` (given in lower case) matches the
beginning of `l` after lower-casing `l` character-wise. -/
def matchesCi : List Char → List Char → Bool
  | [], _ => true
  | _ :: _, [] => false
  | p :: ps, c :: cs => if p = lcChar c then matchesCi ps cs else false

/-- Scan `l` for the first case-insensitive occurrence of `pat` and return
the suffix that follows it, as the lazy quantifier in
`/<script[\s\S]*?<\/script>/gi` locates the nearest closing tag. -/
def dropThroughCi (pat : List Char) : List Char → Option (List Char)
  | [] => none
  | c :: rest =>
    if matchesCi pat (c :: rest) then some ((c :: rest).drop pat.length)
    else dropThroughCi pat rest

/-- Removal of whole `open … close` blocks, the semantics of
`html.replace(/<script[\s\S]*?<\/script>/gi, '')` (and the `style` variant):
at each position, if the opening pattern matches and a closing pattern occurs
later, the whole span is dropped and scanning resumes after it; otherwise the
character is kept. -/
def stripBlocksGo (openPat closePat : List Char) : Nat → List Char → List Char
  | _, [] => []
  | 0, l => l
  | fuel + 1, c :: rest =>
    if matchesCi openPat (c :: rest) then
      match dropThroughCi closePat ((c :: rest).drop openPat.length) with
      | some suffix => stripBlocksGo openPat closePat fuel suffix
      | none => c :: stripBlocksGo openPat closePat fuel rest
    else c :: stripBlocksGo openPat closePat fuel rest

def stripBlocks (openPat closePat : List Char) (l : List Char) : List Char :=
  stripBlocksGo openPat closePat l.length l

/-- Split at the first `'>'`: returns the characters before it and the suffix
after it. -/
def splitAtCloseAngle : List Char → Option (List Char × List Char)
  | [] => none
  | c :: rest =>
    if c = '>' then some ([], rest)
    else
      match splitAtCloseAngle rest with
      | some (gap, suffix) => some (c :: gap, suffix)
      | none => none

/-- The semantics of `.replace(/<[^>]+>/g, ' ')`: every span from a `'<'` to
the first following `'>'` with at least one character in between becomes a
single space; a `'<'` that starts no such span is kept. -/
def stripAngleTagsGo : Nat → List Char → List Char
  | _, [] => []
  | 0, l => l
  | fuel + 1, c :: rest =>
    if c = '<' then
      match splitAtCloseAngle rest with
      | some (gap, suffix) =>
        if gap.isEmpty then '<' :: stripAngleTagsGo fuel rest
        else ' ' :: stripAngleTagsGo fuel suffix
      | none => '<' :: stripAngleTagsGo fuel rest
    else c :: stripAngleTagsGo fuel rest

def stripAngleTags (l : List Char) : List Char :=
  stripAngleTagsGo l.length l

/-- The semantics of `.replace(/\s{2,}/g, ' ')`: every run of two or more
whitespace characters becomes a single space; an isolated whitespace
character is kept unchanged. -/
def collapseWsGo : Nat → List Char → List Char
  | _, [] => []
  | 0, l => l
  | fuel + 1, c :: rest =>
    if isJsWs c then
      match rest with
      | [] => [c]
      | d :: _ =>
        if isJsWs d then ' ' :: collapseWsGo fuel (rest.dropWhile isJsWs)
        else c :: collapseWsGo fuel rest
    else c :: collapseWsGo fuel rest

def collapseWs (l : List Char) : List Char :=
  collapseWsGo l.length l

/-- `String.prototype.trim` on the modelled whitespace class. -/
def jsTrim (l : List Char) : List Char :=
  ((l.dropWhile isJsWs).reverse.dropWhile isJsWs).reverse

/-- The semantics of `text.split(/\s+/)`: pieces between maximal whitespace
runs, keeping an empty piece at an end that touches whitespace, and `[""]`
for the empty string. -/
def splitWsRunsGo : Nat → List Char → List (List Char)
  | 0, l => [l]
  | fuel + 1, l =>
    let word := l.takeWhile (fun c => !isJsWs c)
    let rest := l.dropWhile (fun c => !isJsWs c)
    match rest with
    | [] => [word]
    | _ :: _ => word :: splitWsRunsGo fuel (rest.dropWhile isJsWs)

def splitWsRuns (l : List Char) : List (List Char) :=
  splitWsRunsGo l.length l

/-- `Array.prototype.join(' ')`. -/
def joinSpace : List (List Char) → List Char
  | [] => []
  | [w] => w
  | w :: x :: rest => w ++ ' ' :: joinSpace (x :: rest)

def scriptOpenPat : List Char := ['<', 's', 'c', 'r', 'i', 'p', 't']
def scriptClosePat : List Char := ['<', '/', 's', 'c', 'r', 'i', 'p', 't', '>']
def styleOpenPat : List Char := ['<', 's', 't', 'y', 'l', 'e']
def styleClosePat : List Char := ['<', '/', 's', 't', 'y', 'l', 'e', '>']

/-- The text-stripping chain of the fetch stage (summarizeWorkflow.ts lines
34–39): remove script blocks, remove style blocks, turn remaining tags into
spaces, collapse whitespace runs, trim. -/
def stripText (html : List Char) : List Char :=
  jsTrim (collapseWs (stripAngleTags
    (stripBlocks styleOpenPat styleClosePat
      (stripBlocks scriptOpenPat scriptClosePat html))))

def titleOpenPat : List Char := ['<', 't', 'i', 't', 'l', 'e']
def titleClosePat : List Char := ['<', '/', 't', 'i', 't', 'l', 'e', '>']

/-- One attempt of `/<title[^>]*>([^<]+)<\/title>/i` at the current position:
`<title`, then any characters up to the first `'>'`, then a nonempty run of
non-`'<'` characters (the captured group), then `</title>`. -/
def matchTitleAt (l : List Char) : Option (List Char) :=
  if matchesCi titleOpenPat l then
    match splitAtCloseAngle (l.drop titleOpenPat.length) with
    | none => none
    | some (_, afterGt) =>
      let captured := afterGt.takeWhile (fun c => c ≠ '<')
      let rest := afterGt.dropWhile (fun c => c ≠ '<')
      if captured.isEmpty then none
      else if matchesCi titleClosePat rest then some captured else none
  else none

/-- Leftmost match of the title pattern, as `html.match(regex)` without the
global flag. -/
def findTitle : List Char → Option (List Char)
  | [] => none
  | c :: rest =>
    match matchTitleAt (c :: rest) with
    | some captured => some captured
    | none => findTitle rest

/-- The character class kept by the slug computation,
`title.toLowerCase().replace(/[^a-z0-9]+/g, '-')`. -/
def isSlugChar (c : Char) : Bool :=
  decide (('a' ≤ c ∧ c ≤ 'z') ∨ ('0' ≤ c ∧ c ≤ '9'))

/-- Replace every run of non-slug characters by a single `'-'`. -/
def dashCollapseGo : Nat → List Char → List Char
  | _, [] => []
  | 0, l => l
  | fuel + 1, c :: rest =>
    if isSlugChar c then c :: dashCollapseGo fuel rest
    else '-' :: dashCollapseGo fuel (rest.dropWhile (fun d => !isSlugChar d))

/-- The slug of conditionalSaveStep (summarizeWorkflow.ts lines 87–90):
lower-case, collapse non-alphanumeric runs to dashes, keep 50 characters. -/
def slugify (title : String) : String :=
  String.mk ((dashCollapseGo title.data.length (title.data.map lcChar)).take 50)

/-- The file path built by conditionalSaveStep:
`path.join('./workspace/summaries', slug ++ '-' ++ Date.now() ++ '.md')`. -/
def savePath (now : Nat) (title : String) : String :=
  "workspace/summaries/" ++ slugify title ++ "-" ++ toString now ++ ".md"

/-- The markdown document written by conditionalSaveStep (line 97). -/
def summaryFileContent (title url summary : String) : String :=
  "# " ++ title ++ "\n\n> Source: " ++ url ++ "\n\n" ++ summary ++ "\n"

/-- Output shape of the fetch stage. -/
structure FetchOutput where
  content : String
  title : String
  wordCount : Nat
  url : String
deriving DecidableEq

/-- Input shape of the summarizer stage, built by the first mapping. -/
structure SummarizeInput where
  prompt : String
deriving DecidableEq

/-- Output shape of the summarizer stage.  The field is optional because the
two later mappings in the source defend against a missing `text` field
(`typeof inputData.text === 'string'` and `summarize.text ?? ''`). -/
structure SummarizeOutput where
  text : Option String
deriving DecidableEq

/-- Input shape of the critique stage. -/
structure CritiqueInput where
  text : String
  title : String
  url : String
deriving DecidableEq

/-- Output shape of the critique stage. -/
structure CritiqueResult where
  score : ℚ
  issues : List String
  suggestion : String
deriving DecidableEq

/-- Input shape of the conditional-save stage. -/
structure SaveInput where
  score : ℚ
  summary : String
  title : String
  url : String
deriving DecidableEq

/-- Output shape of the conditional-save stage and terminal output of the
pipeline. -/
structure SaveDecision where
  saved : Bool
  filePath : Option String
deriving DecidableEq

/-- Outcome of `JSON.parse` on the critic's response text: either the text is
not parseable as a critique value, or it parses to one. -/
inductive CriticResponse where
  | unparseable (raw : String)
  | parsed (value : CritiqueResult)
deriving DecidableEq

/-- The HTTP response observed by the fetch stage. -/
structure HttpResponse where
  ok : Bool
  status : Nat
  html : String
deriving DecidableEq

/-- The external collaborators of one run: the HTTP fetch, the summarizer
agent, the critic agent (each may fail with an error message), and the value
of `Date.now()` used by the save stage. -/
structure Env where
  http : String → HttpResponse
  summarizer : SummarizeInput → Except String SummarizeOutput
  critic : String → Except String CriticResponse
  now : Nat

/-- A produced file: the save stage's `fs.writeFile` call, recorded as data. -/
structure FileWrite where
  path : String
  content : String
deriving DecidableEq

/-- The body of `fetchStep.execute` (summarizeWorkflow.ts lines 24–47):
fail on a non-ok response with a message naming the URL and status, otherwise
strip the HTML, extract the title (falling back to the URL), count the words
of the full stripped text, and truncate the content to 8000 words. -/
def fetchExecute (env : Env) (url : String) : Except String FetchOutput :=
  let res := env.http url
  if res.ok = false then
    .error ("Failed to fetch " ++ url ++ ": " ++ toString res.status)
  else
    let html := res.html.data
    let text := stripText html
    let title := match findTitle html with
      | some captured => String.mk (jsTrim captured)
      | none => url
    let pieces := splitWsRuns text
    .ok { content := String.mk (joinSpace (pieces.take 8000)),
          title := title,
          wordCount := pieces.length,
          url := url }

/-- The first mapping (lines 111–113): fetch output to summarizer prompt. -/
def mapToSummarize (inputData : FetchOutput) : SummarizeInput :=
  { prompt := "Summarize the following article titled \"" ++ inputData.title
      ++ "\":\n\n" ++ inputData.content }

/-- The summarizer stage, `createStep(summarizerAgent)`: one call of the
summarizer collaborator. -/
def summarizeExecute (env : Env) (inputData : SummarizeInput) :
    Except String SummarizeOutput :=
  env.summarizer inputData

/-- Named outputs recorded in the run, the values `getStepResult` reads. -/
inductive StepOutput where
  | fetch (o : FetchOutput)
  | summarize (o : SummarizeOutput)
  | critique (o : CritiqueResult)
  | save (o : SaveDecision)
deriving DecidableEq

abbrev RunLog := List (String × StepOutput)

def getFetchResult (log : RunLog) : Option FetchOutput :=
  match log.lookup "fetch-page" with
  | some (.fetch f) => some f
  | _ => none

def getSummarizerResult (log : RunLog) : Option SummarizeOutput :=
  match log.lookup "summarizer" with
  | some (.summarize s) => some s
  | _ => none

/-- `JSON.stringify` of the summarizer step output in the case the mapping
actually evaluates it, namely when the `text` field is absent: the object
serialises to the two-character string of braces. -/
def jsonStringifyOutput (_ : SummarizeOutput) : String := "\x7b\x7d"

/-- The expression `typeof inputData.text === 'string' ? inputData.text :
JSON.stringify(inputData)` of the second mapping. -/
def summaryTextOf (inputData : SummarizeOutput) : String :=
  match inputData.text with
  | some t => t
  | none => jsonStringifyOutput inputData

/-- The second mapping (lines 115–127): summarizer output plus the recorded
fetch output to critique input.  A missing `text` field is replaced by the
JSON serialisation of the input, not reported as an error. -/
def mapToCritique (inputData : SummarizeOutput) (log : RunLog) :
    Except String CritiqueInput :=
  match getFetchResult log with
  | none => .error "TypeError: fetch-page result is undefined"
  | some f => .ok { text := summaryTextOf inputData, title := f.title, url := f.url }

/-- The prompt sent to the critic agent (lines 62–64). -/
def critiquePrompt (inputData : CritiqueInput) : String :=
  "Please critique this summary of \"" ++ inputData.title ++ "\":\n\n"
    ++ inputData.text

/-- The body of `critiqueStep.execute` (lines 52–71): call the critic, return
the parsed JSON, or the fixed fallback judgment when parsing fails. -/
def critiqueExecute (env : Env) (inputData : CritiqueInput) :
    Except String CritiqueResult :=
  match env.critic (critiquePrompt inputData) with
  | .error e => .error e
  | .ok (.unparseable _) =>
    .ok { score := 5, issues := ["Could not parse critique"], suggestion := "" }
  | .ok (.parsed value) => .ok value

/-- The third mapping (lines 129–138): critique output plus the recorded
summarizer and fetch outputs to save input.  A missing summarizer `text`
field is replaced by the empty string (`summarize.text ?? ''`). -/
def mapToSave (inputData : CritiqueResult) (log : RunLog) :
    Except String SaveInput :=
  match getSummarizerResult log, getFetchResult log with
  | some s, some f =>
    .ok { score := inputData.score, summary := s.text.getD "",
          title := f.title, url := f.url }
  | _, _ => .error "TypeError: step result is undefined"

/-- The body of `conditionalSaveStep.execute` (lines 73–103): skip persistence
below the threshold 7, otherwise write the markdown file and return its
path. -/
def conditionalSaveExecute (env : Env) (inputData : SaveInput) :
    SaveDecision × List FileWrite :=
  if inputData.score < 7 then ({ saved := false, filePath := none }, [])
  else
    let filePath := savePath env.now inputData.title
    ({ saved := true, filePath := some filePath },
     [{ path := filePath,
        content := summaryFileContent inputData.title inputData.url
          inputData.summary }])

/-- Terminal status of a run. -/
inductive RunStatus where
  | succeeded
  | failed (name : String) (cause : String)
deriving DecidableEq

/-- Observable outcome of one run: status, terminal output, the append-only
output log, the stages whose execute function was invoked (in invocation
order), and the files written. -/
structure RunResult where
  status : RunStatus
  output : Option SaveDecision
  log : RunLog
  invoked : List String
  writes : List FileWrite
deriving DecidableEq

/-- The declared stage order of the pipeline. -/
def stageNames : List String :=
  ["fetch-page", "summarizer", "critique", "conditional-save"]

/-- Modelled from the spec: the orchestrator loop of §4.3 (implemented by the
`@mastra/core` workflow engine, which is not part of this repository) applied
to the committed chain of summarizeWorkflow.ts lines 105–140.  Stages run in
declared order; each output is appended to the log under the stage name; a
stage or mapping error halts the run as failed with that name; the last
output becomes the terminal output of a succeeded run. -/
def runWorkflow (env : Env) (url : String) : RunResult :=
  match fetchExecute env url with
  | .error e =>
    { status := .failed "fetch-page" e, output := none, log := [],
      invoked := ["fetch-page"], writes := [] }
  | .ok f =>
    let log1 : RunLog := [("fetch-page", .fetch f)]
    match summarizeExecute env (mapToSummarize f) with
    | .error e =>
      { status := .failed "summarizer" e, output := none, log := log1,
        invoked := ["fetch-page", "summarizer"], writes := [] }
    | .ok s =>
      let log2 := log1 ++ [("summarizer", .summarize s)]
      match mapToCritique s log2 with
      | .error e =>
        { status := .failed "mapping summarizer->critique" e, output := none,
          log := log2, invoked := ["fetch-page", "summarizer"], writes := [] }
      | .ok ci =>
        match critiqueExecute env ci with
        | .error e =>
          { status := .failed "critique" e, output := none, log := log2,
            invoked := ["fetch-page", "summarizer", "critique"], writes := [] }
        | .ok v =>
          let log3 := log2 ++ [("critique", .critique v)]
          match mapToSave v log3 with
          | .error e =>
            { status := .failed "mapping critique->conditional-save" e,
              output := none, log := log3,
              invoked := ["fetch-page", "summarizer", "critique"],
              writes := [] }
          | .ok si =>
            let result := conditionalSaveExecute env si
            { status := .succeeded, output := some result.1,
              log := log3 ++ [("conditional-save", .save result.1)],
              invoked := stageNames, writes := result.2 }

/-! ## Run-level helper lemmas -/

theorem getFetchResult_run (f : FetchOutput) (rest : RunLog) :
    getFetchResult (("fetch-page", StepOutput.fetch f) :: rest) = some f := rfl

theorem getSummarizerResult_run (f : FetchOutput) (s : SummarizeOutput)
    (rest : RunLog) :
    getSummarizerResult (("fetch-page", StepOutput.fetch f)
      :: ("summarizer", StepOutput.summarize s) :: rest) = some s := rfl

theorem mapToCritique_run (s : SummarizeOutput) (f : FetchOutput)
    (rest : RunLog) :
    mapToCritique s (("fetch-page", StepOutput.fetch f) :: rest)
      = .ok { text := summaryTextOf s, title := f.title, url := f.url } := rfl

theorem mapToSave_run (v : CritiqueResult) (f : FetchOutput)
    (s : SummarizeOutput) (rest : RunLog) :
    mapToSave v (("fetch-page", StepOutput.fetch f)
        :: ("summarizer", StepOutput.summarize s) :: rest)
      = .ok { score := v.score, summary := s.text.getD "",
              title := f.title, url := f.url } := rfl

theorem critiqueExecute_unparseable (env : Env) (i : CritiqueInput) (raw : String)
    (h : env.critic (critiquePrompt i) = .ok (.unparseable raw)) :
    critiqueExecute env i
      = .ok { score := 5, issues := ["Could not parse critique"],
              suggestion := "" } := by
  simp [critiqueExecute, h]

theorem critiqueExecute_parsed (env : Env) (i : CritiqueInput) (v : CritiqueResult)
    (h : env.critic (critiquePrompt i) = .ok (.parsed v)) :
    critiqueExecute env i = .ok v := by
  simp [critiqueExecute, h]

/-- Closed form of a run in which all three fallible collaborators answer:
the run reaches the conditional-save stage with the critique score, the
summarizer text and the fetch title and url. -/
theorem runWorkflow_spec (env : Env) (url : String) (f : FetchOutput)
    (s : SummarizeOutput) (v : CritiqueResult)
    (hf : fetchExecute env url = .ok f)
    (hs : env.summarizer (mapToSummarize f) = .ok s)
    (hc : critiqueExecute env
            { text := summaryTextOf s, title := f.title, url := f.url }
            = .ok v) :
    runWorkflow env url =
      { status := .succeeded,
        output := some (conditionalSaveExecute env
          { score := v.score, summary := s.text.getD "", title := f.title,
            url := f.url }).1,
        log := [("fetch-page", .fetch f),
                ("summarizer", .summarize s),
                ("critique", .critique v),
                ("conditional-save", .save (conditionalSaveExecute env
                  { score := v.score, summary := s.text.getD "",
                    title := f.title, url := f.url }).1)],
        invoked := stageNames,
        writes := (conditionalSaveExecute env
          { score := v.score, summary := s.text.getD "", title := f.title,
            url := f.url }).2 } := by
  simp only [runWorkflow, summarizeExecute, hf, hs, mapToCritique_run, hc,
    mapToSave_run, List.cons_append, List.nil_append]

/-- Stages declared strictly after a given stage or mapping position in the
pipeline order. -/
def stagesAfter (n : String) : List String :=
  if n = "fetch-page" then ["summarizer", "critique", "conditional-save"]
  else if n = "summarizer" then ["critique", "conditional-save"]
  else if n = "mapping summarizer->critique" then ["critique", "conditional-save"]
  else if n = "critique" then ["conditional-save"]
  else if n = "mapping critique->conditional-save" then ["conditional-save"]
  else []

/-- Exhaustive case analysis of a run: it either succeeds having invoked all
four stages, or fails at a position having invoked exactly the stages up to
that position. -/
theorem runWorkflow_invoked_cases (env : Env) (url : String) :
    ((runWorkflow env url).status = .succeeded ∧
      (runWorkflow env url).invoked = stageNames) ∨
    (∃ c, (runWorkflow env url).status = .failed "fetch-page" c ∧
      (runWorkflow env url).invoked = ["fetch-page"]) ∨
    (∃ n c, (runWorkflow env url).status = .failed n c ∧
      (n = "summarizer" ∨ n = "mapping summarizer->critique") ∧
      (runWorkflow env url).invoked = ["fetch-page", "summarizer"]) ∨
    (∃ n c, (runWorkflow env url).status = .failed n c ∧
      (n = "critique" ∨ n = "mapping critique->conditional-save") ∧
      (runWorkflow env url).invoked = ["fetch-page", "summarizer", "critique"]) := by
  cases hF : fetchExecute env url with
  | error e =>
    refine .inr (.inl ⟨e, ?_, ?_⟩) <;> simp only [runWorkflow, hF]
  | ok f =>
    cases hS : summarizeExecute env (mapToSummarize f) with
    | error e =>
      refine .inr (.inr (.inl ⟨"summarizer", e, ?_, .inl rfl, ?_⟩)) <;>
        simp only [runWorkflow, hF, hS]
    | ok s =>
      cases hM : mapToCritique s [("fetch-page", .fetch f), ("summarizer", .summarize s)] with
      | error e =>
        refine .inr (.inr (.inl ⟨"mapping summarizer->critique", e, ?_, .inr rfl, ?_⟩)) <;>
          simp only [runWorkflow, hF, hS, List.cons_append, List.nil_append, hM]
      | ok ci =>
        cases hC : critiqueExecute env ci with
        | error e =>
          refine .inr (.inr (.inr ⟨"critique", e, ?_, .inl rfl, ?_⟩)) <;>
            simp only [runWorkflow, hF, hS, List.cons_append, List.nil_append, hM, hC]
        | ok v =>
          cases hM2 : mapToSave v [("fetch-page", .fetch f), ("summarizer", .summarize s), ("critique", .critique v)] with
          | error e =>
            refine .inr (.inr (.inr ⟨"mapping critique->conditional-save", e, ?_, .inr rfl, ?_⟩)) <;>
              simp only [runWorkflow, hF, hS, List.cons_append, List.nil_append, hM, hC, hM2]
          | ok si =>
            refine .inl ⟨?_, ?_⟩ <;>
              simp only [runWorkflow, hF, hS, List.cons_append, List.nil_append, hM, hC, hM2]

/-! ## Concrete collaborator environments used by witnesses and
counterexamples -/

def okSummarizer : SummarizeInput → Except String SummarizeOutput :=
  fun _ => .ok { text := some "A fine summary." }

def envScore8 : Env :=
  { http := fun _ => { ok := true, status := 200, html := "" },
    summarizer := okSummarizer,
    critic := fun _ => .ok (.parsed { score := 8, issues := [], suggestion := "" }),
    now := 0 }

def envScore3 : Env :=
  { http := fun _ => { ok := true, status := 200, html := "" },
    summarizer := okSummarizer,
    critic := fun _ => .ok (.parsed { score := 3, issues := ["too long"], suggestion := "shorten" }),
    now := 0 }

def envBadHttp : Env :=
  { http := fun _ => { ok := false, status := 500, html := "" },
    summarizer := okSummarizer,
    critic := fun _ => .ok (.unparseable "oops"),
    now := 0 }

def envUnparseable : Env :=
  { http := fun _ => { ok := true, status := 200, html := "" },
    summarizer := okSummarizer,
    critic := fun _ => .ok (.unparseable "plain prose, not JSON"),
    now := 0 }

def envScore42 : Env :=
  { http := fun _ => { ok := true, status := 200, html := "" },
    summarizer := okSummarizer,
    critic := fun _ => .ok (.parsed { score := 42, issues := [], suggestion := "" }),
    now := 0 }

/-- The fetch output of a run against an empty page body. -/
def emptyPageFetch (url : String) : FetchOutput :=
  { content := "", title := url, wordCount := 1, url := url }

/-! ## Claims -/

/-- C1: For every run reaching the conditional-save stage, a critique score
of at least 7 invokes persistence and the stage returns saved with a file
path, while a score strictly below 7 skips persistence, returns unsaved
with no file path, and the run still terminates as a successful outcome. -/
theorem conditional_save_threshold (env : Env) (url : String) (f : FetchOutput)
    (t : String) (v : CritiqueResult)
    (hf : fetchExecute env url = .ok f)
    (hs : env.summarizer (mapToSummarize f) = .ok { text := some t })
    (hc : critiqueExecute env { text := t, title := f.title, url := f.url }
            = .ok v) :
    (7 ≤ v.score →
      (runWorkflow env url).status = .succeeded ∧
      (runWorkflow env url).output
        = some { saved := true, filePath := some (savePath env.now f.title) } ∧
      (runWorkflow env url).writes ≠ []) ∧
    (v.score < 7 →
      (runWorkflow env url).status = .succeeded ∧
      (runWorkflow env url).output = some { saved := false, filePath := none } ∧
      (runWorkflow env url).writes = []) := by
  rw [runWorkflow_spec env url f { text := some t } v hf hs (by exact hc)]
  constructor
  · intro h7
    simp [conditionalSaveExecute, not_lt.mpr h7]
  · intro h7
    simp [conditionalSaveExecute, h7]

/-- C1 witness: a concrete run with critique score 8 against an empty page. -/
theorem conditional_save_threshold_witness :
    (runWorkflow envScore8 "https://example.com").status = .succeeded ∧
    (runWorkflow envScore8 "https://example.com").output
      = some { saved := true,
               filePath := some "workspace/summaries/https-example-com-0.md" } := by
  have h := (conditional_save_threshold envScore8 "https://example.com"
      (emptyPageFetch "https://example.com") "A fine summary."
      { score := 8, issues := [], suggestion := "" }
      rfl rfl rfl).1 (by decide)
  refine ⟨h.1, ?_⟩
  rw [h.2.1]
  rfl

/-- C2: A stage failure (in particular a non-ok HTTP response in the fetch
stage, whose error names the URL and status) makes the run fail with the
failing stage's declared name, and no stage declared after the failure point
is ever invoked. -/
theorem stage_failure_fail_fast (env : Env) (url : String) :
    ((env.http url).ok = false →
      (runWorkflow env url).status = .failed "fetch-page"
          ("Failed to fetch " ++ url ++ ": " ++ toString (env.http url).status) ∧
      (runWorkflow env url).invoked = ["fetch-page"] ∧
      (runWorkflow env url).output = none ∧
      (runWorkflow env url).writes = []) ∧
    (∀ n c, (runWorkflow env url).status = .failed n c →
      ∀ m ∈ stagesAfter n, m ∉ (runWorkflow env url).invoked) := by
  constructor
  · intro h
    have hf : fetchExecute env url
        = .error ("Failed to fetch " ++ url ++ ": " ++ toString (env.http url).status) := by
      simp [fetchExecute, h]
    simp [runWorkflow, hf]
  · intro n c hst m hm
    rcases runWorkflow_invoked_cases env url with
      ⟨h1, h2⟩ | ⟨c', h1, h2⟩ | ⟨n', c', h1, hn, h2⟩ | ⟨n', c', h1, hn, h2⟩
    · rw [h1] at hst
      exact absurd hst (by simp)
    · rw [h1] at hst
      injection hst with e1 e2
      subst e1
      rw [h2]
      simp only [stagesAfter, reduceIte] at hm
      simp only [List.mem_cons, List.not_mem_nil, or_false] at hm
      rcases hm with rfl | rfl | rfl <;> decide
    · rw [h1] at hst
      injection hst with e1 e2
      subst e1
      rw [h2]
      rcases hn with rfl | rfl <;>
        · simp only [stagesAfter, String.reduceEq, reduceIte] at hm
          simp only [List.mem_cons, List.not_mem_nil, or_false] at hm
          rcases hm with rfl | rfl <;> decide
    · rw [h1] at hst
      injection hst with e1 e2
      subst e1
      rw [h2]
      rcases hn with rfl | rfl <;>
        · simp only [stagesAfter, String.reduceEq, reduceIte] at hm
          simp only [List.mem_cons, List.not_mem_nil, or_false] at hm
          rcases hm with rfl; decide

/-- C2 witness: a concrete run whose HTTP response has status 500. -/
theorem stage_failure_fail_fast_witness :
    (runWorkflow envBadHttp "https://example.com").status
      = .failed "fetch-page" "Failed to fetch https://example.com: 500" ∧
    (runWorkflow envBadHttp "https://example.com").invoked = ["fetch-page"] := by
  have h := (stage_failure_fail_fast envBadHttp "https://example.com").1 rfl
  exact ⟨by rw [h.1]; rfl, h.2.1⟩

/-- C3 counterexample: the fallback issue text in the code is
`"Could not parse critique"`, not `"could not parse"` as the claim states. -/
theorem critique_fallback_issues_counterexample :
    critiqueExecute envUnparseable { text := "s", title := "t", url := "u" }
      = .ok { score := 5, issues := ["Could not parse critique"],
              suggestion := "" } ∧
    (["Could not parse critique"] : List String) ≠ ["could not parse"] :=
  ⟨rfl, by decide⟩

/-- C3 (amended): an unparseable critic response yields the fallback judgment
with score 5, issues `["Could not parse critique"]` and empty suggestion,
and the run continues through the conditional-save stage to a successful
outcome rather than failing. -/
theorem critique_unparseable_fallback_run (env : Env) (url : String)
    (f : FetchOutput) (t : String) (raw : String)
    (hf : fetchExecute env url = .ok f)
    (hs : env.summarizer (mapToSummarize f) = .ok { text := some t })
    (hc : env.critic (critiquePrompt { text := t, title := f.title, url := f.url })
            = .ok (.unparseable raw)) :
    critiqueExecute env { text := t, title := f.title, url := f.url }
      = .ok { score := 5, issues := ["Could not parse critique"],
              suggestion := "" } ∧
    (runWorkflow env url).status = .succeeded ∧
    (runWorkflow env url).invoked = stageNames ∧
    (runWorkflow env url).output = some { saved := false, filePath := none } := by
  have hce := critiqueExecute_unparseable env
    { text := t, title := f.title, url := f.url } raw hc
  refine ⟨hce, ?_⟩
  rw [runWorkflow_spec env url f { text := some t } _ hf hs (by exact hce)]
  refine ⟨rfl, rfl, ?_⟩
  simp [conditionalSaveExecute, show (5 : ℚ) < 7 by decide]

/-- C3 witness: a concrete run whose critic answers plain prose. -/
theorem critique_unparseable_fallback_run_witness :
    (runWorkflow envUnparseable "https://example.com").status = .succeeded ∧
    (runWorkflow envUnparseable "https://example.com").output
      = some { saved := false, filePath := none } := by
  have h := critique_unparseable_fallback_run envUnparseable "https://example.com"
    (emptyPageFetch "https://example.com") "A fine summary."
    "plain prose, not JSON" rfl rfl rfl
  exact ⟨h.2.1, h.2.2.2⟩

/-- C4 counterexample: with the summarizer `text` field absent, the
summarize→critique mapping silently substitutes the JSON serialisation of
its input and the critique→save mapping silently substitutes the empty
string; neither fails with a MappingError. -/
theorem mapping_silent_defaults_counterexample :
    mapToCritique { text := none }
        [("fetch-page", .fetch { content := "c", title := "T", url := "U",
                                 wordCount := 1 }),
         ("summarizer", .summarize { text := none })]
      = .ok { text := "\x7b\x7d", title := "T", url := "U" } ∧
    mapToSave { score := 3, issues := [], suggestion := "" }
        [("fetch-page", .fetch { content := "c", title := "T", url := "U",
                                 wordCount := 1 }),
         ("summarizer", .summarize { text := none })]
      = .ok { score := 3, summary := "", title := "T", url := "U" } :=
  ⟨rfl, rfl⟩

/-- C4 (amended): whenever the run context holds the fetch (and, for the
third mapping, the summarizer) entry — as it always does at these points of a
run — the mappings succeed unconditionally, substituting the JSON
serialisation of the input respectively the empty string for a missing
summarizer `text` field rather than raising any shape error. -/
theorem mappings_never_raise_shape_errors (s : SummarizeOutput)
    (v : CritiqueResult) (log : RunLog) (f : FetchOutput) (so : SummarizeOutput)
    (hf : getFetchResult log = some f)
    (hs : getSummarizerResult log = some so) :
    mapToCritique s log
      = .ok { text := summaryTextOf s, title := f.title, url := f.url } ∧
    mapToSave v log
      = .ok { score := v.score, summary := so.text.getD "",
              title := f.title, url := f.url } := by
  constructor
  · simp [mapToCritique, hf]
  · simp [mapToSave, hf, hs]

/-- C4 witness: the amended mapping behaviour at a concrete run context. -/
theorem mappings_never_raise_shape_errors_witness :
    mapToCritique { text := none }
        [("fetch-page", .fetch { content := "c", title := "T", url := "U",
                                 wordCount := 1 }),
         ("summarizer", .summarize { text := none })]
      = .ok { text := summaryTextOf { text := none }, title := "T", url := "U" } :=
  (mappings_never_raise_shape_errors { text := none }
    { score := 3, issues := [], suggestion := "" }
    [("fetch-page", .fetch { content := "c", title := "T", url := "U",
                             wordCount := 1 }),
     ("summarizer", .summarize { text := none })]
    { content := "c", title := "T", url := "U", wordCount := 1 }
    { text := none } rfl rfl).1

/-- C5 counterexample: a critic response that parses to score 42 flows
through the critique stage unchanged, so the stage's output score is not
bounded by 10. -/
theorem critique_score_unbounded_counterexample :
    critiqueExecute envScore42 { text := "s", title := "t", url := "u" }
      = .ok { score := 42, issues := [], suggestion := "" } ∧
    ¬ ((42 : ℚ) ≤ 10) :=
  ⟨rfl, by decide⟩

/-- C5 (amended): the critique stage never clamps the score: an unparseable
response yields the in-range fallback score 5, and a parsed response is
passed through unchanged, so the output score lies in 0–10 exactly when the
parsed score does. -/
theorem critique_score_passthrough (env : Env) (i : CritiqueInput) :
    (∀ raw, env.critic (critiquePrompt i) = .ok (.unparseable raw) →
      ∃ r, critiqueExecute env i = .ok r ∧ 0 ≤ r.score ∧ r.score ≤ 10) ∧
    (∀ v, env.critic (critiquePrompt i) = .ok (.parsed v) →
      critiqueExecute env i = .ok v) := by
  constructor
  · intro raw h
    exact ⟨{ score := 5, issues := ["Could not parse critique"], suggestion := "" },
      critiqueExecute_unparseable env i raw h, by decide, by decide⟩
  · intro v h
    exact critiqueExecute_parsed env i v h

/-- C5 witness: the pass-through at the concrete score-42 critic. -/
theorem critique_score_passthrough_witness :
    critiqueExecute envScore42 { text := "sum", title := "ttl", url := "u" }
      = .ok { score := 42, issues := [], suggestion := "" } :=
  (critique_score_passthrough envScore42
    { text := "sum", title := "ttl", url := "u" }).2
    { score := 42, issues := [], suggestion := "" } rfl

/-- C6: Whenever all collaborators answer (so no stage errs), the run
succeeds, all four stages are recorded in declared order, and the terminal
output is exactly the conditional-save stage's recorded output, of the
declared `SaveDecision` shape. -/
theorem run_succeeds_terminal_output (env : Env) (url : String)
    (hok : (env.http url).ok = true)
    (hs : ∀ i, ∃ o, env.summarizer i = .ok o)
    (hc : ∀ p, ∃ r, env.critic p = .ok r) :
    ∃ d, (runWorkflow env url).status = .succeeded ∧
      (runWorkflow env url).output = some d ∧
      (runWorkflow env url).log.map Prod.fst = stageNames ∧
      (runWorkflow env url).log.getLast? = some ("conditional-save", .save d) := by
  cases hF : fetchExecute env url with
  | error e =>
    rw [fetchExecute] at hF
    simp [hok] at hF
  | ok f =>
    obtain ⟨s, hS⟩ := hs (mapToSummarize f)
    obtain ⟨r, hC⟩ := hc (critiquePrompt
      { text := summaryTextOf s, title := f.title, url := f.url })
    have hce : ∃ v, critiqueExecute env
        { text := summaryTextOf s, title := f.title, url := f.url } = .ok v := by
      cases r with
      | unparseable raw => exact ⟨_, critiqueExecute_unparseable env _ raw hC⟩
      | parsed v => exact ⟨v, critiqueExecute_parsed env _ v hC⟩
    obtain ⟨v, hV⟩ := hce
    rw [runWorkflow_spec env url f s v hF hS hV]
    exact ⟨_, rfl, rfl, rfl, rfl⟩

/-- C6 witness: a concrete low-score run succeeds with the save decision as
terminal output. -/
theorem run_succeeds_terminal_output_witness :
    ∃ d, (runWorkflow envScore3 "https://example.com").status = .succeeded ∧
      (runWorkflow envScore3 "https://example.com").output = some d ∧
      (runWorkflow envScore3 "https://example.com").log.map Prod.fst = stageNames ∧
      (runWorkflow envScore3 "https://example.com").log.getLast?
        = some ("conditional-save", .save d) :=
  run_succeeds_terminal_output envScore3 "https://example.com" rfl
    (fun _ => ⟨{ text := some "A fine summary." }, rfl⟩)
    (fun _ => ⟨.parsed { score := 3, issues := ["too long"], suggestion := "shorten" }, rfl⟩)

/-- C7: In a successful high-score run, the conditional-save stage receives
the critique score, the summarizer text and the fetch stage's recorded title
and url — read from the run context across non-adjacent stages — so the
persisted file's heading title and source url are the fetch stage's. -/
theorem save_stage_reads_run_context (env : Env) (url : String)
    (f : FetchOutput) (t : String) (v : CritiqueResult)
    (hf : fetchExecute env url = .ok f)
    (hs : env.summarizer (mapToSummarize f) = .ok { text := some t })
    (hc : critiqueExecute env { text := t, title := f.title, url := f.url }
            = .ok v)
    (h7 : 7 ≤ v.score) :
    mapToSave v [("fetch-page", .fetch f),
        ("summarizer", .summarize { text := some t }), ("critique", .critique v)]
      = .ok { score := v.score, summary := t, title := f.title, url := f.url } ∧
    (runWorkflow env url).writes
      = [{ path := savePath env.now f.title,
           content := summaryFileContent f.title f.url t }] ∧
    (runWorkflow env url).output
      = some { saved := true, filePath := some (savePath env.now f.title) } := by
  refine ⟨by simp [mapToSave_run], ?_, ?_⟩ <;>
  · rw [runWorkflow_spec env url f { text := some t } v hf hs (by exact hc)]
    simp [conditionalSaveExecute, not_lt.mpr h7]

/-- C7 witness: the concrete score-8 run writes the file built from the fetch
title and url and the summarizer text. -/
theorem save_stage_reads_run_context_witness :
    (runWorkflow envScore8 "https://example.com").writes
      = [{ path := "workspace/summaries/https-example-com-0.md",
           content := "# https://example.com\n\n> Source: https://example.com\n\nA fine summary.\n" }] := by
  have h := (save_stage_reads_run_context envScore8 "https://example.com"
    (emptyPageFetch "https://example.com") "A fine summary."
    { score := 8, issues := [], suggestion := "" }
    rfl rfl rfl (by decide)).2.1
  rw [h]
  rfl

/-- C8: The three mapping functions are deterministic: two invocations with
identical input data and an identical run-context snapshot produce identical
outputs. -/
theorem mappings_deterministic (f g : FetchOutput) (s s2 : SummarizeOutput)
    (v v2 : CritiqueResult) (log log2 : RunLog)
    (h1 : f = g) (h2 : s = s2) (h3 : v = v2) (h4 : log = log2) :
    mapToSummarize f = mapToSummarize g ∧
    mapToCritique s log = mapToCritique s2 log2 ∧
    mapToSave v log = mapToSave v2 log2 := by
  subst h1 h2 h3 h4
  exact ⟨rfl, rfl, rfl⟩

/-- C8 witness: determinism at a concrete input and context snapshot. -/
theorem mappings_deterministic_witness :
    mapToSummarize { content := "body", title := "T", url := "U", wordCount := 1 }
      = mapToSummarize { content := "body", title := "T", url := "U", wordCount := 1 } :=
  (mappings_deterministic
    { content := "body", title := "T", url := "U", wordCount := 1 }
    { content := "body", title := "T", url := "U", wordCount := 1 }
    { text := some "s" } { text := some "s" }
    { score := 3, issues := [], suggestion := "" }
    { score := 3, issues := [], suggestion := "" }
    [] [] rfl rfl rfl rfl).1

/-! ## Word-splitting lemmas for the fetch stage -/

theorem dwLenLe (p : Char → Bool) (l : List Char) :
    (l.dropWhile p).length ≤ l.length := by
  induction l with
  | nil => simp
  | cons a t ih =>
    rw [List.dropWhile_cons]
    split
    · exact Nat.le_trans ih (by simp)
    · simp

theorem dwHeadFalse {p : Char → Bool} {l : List Char} {c : Char} {t : List Char}
    (h : l.dropWhile p = c :: t) : p c = false := by
  have hh := List.head?_dropWhile_not p l
  rw [h] at hh
  simpa using hh

theorem splitNextLen {l rest : List Char}
    (h : l.dropWhile (fun c => !isJsWs c) = rest) (hne : rest ≠ []) :
    (rest.dropWhile isJsWs).length < l.length := by
  obtain ⟨c, t, rfl⟩ := List.exists_cons_of_ne_nil hne
  have hws : isJsWs c = true := by
    have := dwHeadFalse h
    simpa using this
  have h1 : ((c :: t).dropWhile isJsWs).length ≤ t.length := by
    rw [List.dropWhile_cons_of_pos hws]
    exact dwLenLe isJsWs t
  have h2 : (c :: t).length ≤ l.length := by
    rw [← h]
    exact dwLenLe _ l
  simp only [List.length_cons] at h2
  omega

theorem splitGoFuel : ∀ (f1 f2 : Nat) (l : List Char),
    l.length ≤ f1 → l.length ≤ f2 → splitWsRunsGo f1 l = splitWsRunsGo f2 l := by
  intro f1
  induction f1 with
  | zero =>
    intro f2 l h1 _
    have hl : l = [] := List.eq_nil_of_length_eq_zero (Nat.le_zero.mp h1)
    subst hl
    cases f2 <;> rfl
  | succ g ih =>
    intro f2 l h1 h2
    cases f2 with
    | zero =>
      have hl : l = [] := List.eq_nil_of_length_eq_zero (Nat.le_zero.mp h2)
      subst hl
      rfl
    | succ g2 =>
      cases hrest : l.dropWhile (fun c => !isJsWs c) with
      | nil => simp only [splitWsRunsGo, hrest]
      | cons r rt =>
        have hlt := splitNextLen hrest (List.cons_ne_nil r rt)
        simp only [splitWsRunsGo, hrest]
        rw [ih g2 ((r :: rt).dropWhile isJsWs) (by omega) (by omega)]

theorem splitWsRunsGoNeNil : ∀ (f : Nat) (l : List Char), splitWsRunsGo f l ≠ [] := by
  intro f l
  cases f with
  | zero => simp [splitWsRunsGo]
  | succ g =>
    cases hrest : l.dropWhile (fun c => !isJsWs c) with
    | nil => simp [splitWsRunsGo, hrest]
    | cons r rt => simp [splitWsRunsGo, hrest]

theorem splitWsRunsSingle (w : List Char) (hne : w ≠ [])
    (hwf : ∀ c ∈ w, isJsWs c = false) : splitWsRuns w = [w] := by
  have hdw : w.dropWhile (fun c => !isJsWs c) = [] :=
    List.dropWhile_eq_nil_iff.mpr (fun x hx => by simp [hwf x hx])
  have htw : w.takeWhile (fun c => !isJsWs c) = w :=
    List.takeWhile_eq_self_iff.mpr (fun x hx => by simp [hwf x hx])
  unfold splitWsRuns
  cases hlen : w.length with
  | zero => exact absurd (List.eq_nil_of_length_eq_zero hlen) hne
  | succ n => simp only [splitWsRunsGo, hdw, htw]

theorem takeWhileAppendAll {p : Char → Bool} {a : List Char} (b : List Char)
    (h : ∀ c ∈ a, p c = true) : (a ++ b).takeWhile p = a ++ b.takeWhile p := by
  induction a with
  | nil => simp
  | cons c t ih =>
    rw [List.cons_append, List.takeWhile_cons_of_pos (h c (by simp)),
      ih (fun x hx => h x (by simp [hx])), List.cons_append]

theorem dropWhileAppendAll {p : Char → Bool} {a : List Char} (b : List Char)
    (h : ∀ c ∈ a, p c = true) : (a ++ b).dropWhile p = b.dropWhile p := by
  induction a with
  | nil => simp
  | cons c t ih =>
    rw [List.cons_append, List.dropWhile_cons_of_pos (h c (by simp)),
      ih (fun x hx => h x (by simp [hx]))]

theorem splitJoinSpace : ∀ ps : List (List Char), ps ≠ [] →
    (∀ w ∈ ps, w ≠ [] ∧ ∀ c ∈ w, isJsWs c = false) →
    splitWsRuns (joinSpace ps) = ps := by
  intro ps
  induction ps with
  | nil => intro h; exact absurd rfl h
  | cons w ws ih =>
    intro _ hgood
    cases ws with
    | nil =>
      obtain ⟨hne, hwf⟩ := hgood w (by simp)
      exact splitWsRunsSingle w hne hwf
    | cons x t =>
      obtain ⟨hwne, hwf⟩ := hgood w (by simp)
      obtain ⟨hxne, hxf⟩ := hgood x (by simp)
      have hj : joinSpace (w :: x :: t) = w ++ ' ' :: joinSpace (x :: t) := rfl
      have hjh : ∃ c cs, joinSpace (x :: t) = c :: cs ∧ isJsWs c = false := by
        obtain ⟨c, cs, hx⟩ := List.exists_cons_of_ne_nil hxne
        cases t with
        | nil => exact ⟨c, cs, by rw [show joinSpace [x] = x from rfl, hx],
            hxf c (by rw [hx]; simp)⟩
        | cons y u =>
          refine ⟨c, cs ++ ' ' :: joinSpace (y :: u), ?_, hxf c (by rw [hx]; simp)⟩
          rw [show joinSpace (x :: y :: u) = x ++ ' ' :: joinSpace (y :: u) from rfl, hx]
          rfl
      obtain ⟨c, cs, hjx, hcws⟩ := hjh
      have hwtrue : ∀ d ∈ w, (fun c => !isJsWs c) d = true := by
        intro d hd; simp [hwf d hd]
      have htw : (w ++ ' ' :: joinSpace (x :: t)).takeWhile (fun c => !isJsWs c) = w := by
        rw [takeWhileAppendAll _ hwtrue,
          List.takeWhile_cons_of_neg (by simp [isJsWs]), List.append_nil]
      have hdw : (w ++ ' ' :: joinSpace (x :: t)).dropWhile (fun c => !isJsWs c)
          = ' ' :: joinSpace (x :: t) := by
        rw [dropWhileAppendAll _ hwtrue,
          List.dropWhile_cons_of_neg (by simp [isJsWs])]
      have hnext : (' ' :: joinSpace (x :: t)).dropWhile isJsWs = joinSpace (x :: t) := by
        rw [List.dropWhile_cons_of_pos (by simp [isJsWs]), hjx,
          List.dropWhile_cons_of_neg (by simp [hcws]), ← hjx]
      rw [hj]
      unfold splitWsRuns
      cases hlen : (w ++ ' ' :: joinSpace (x :: t)).length with
      | zero => simp at hlen
      | succ n =>
        simp only [splitWsRunsGo, htw, hdw, hnext]
        have hlen2 : (joinSpace (x :: t)).length ≤ n := by
          rw [List.length_append, List.length_cons] at hlen
          omega
        rw [splitGoFuel n (joinSpace (x :: t)).length _ hlen2 le_rfl]
        show w :: splitWsRuns (joinSpace (x :: t)) = w :: x :: t
        rw [ih (by simp) (fun z hz => hgood z (by simp [hz]))]

theorem splitPiecesGood : ∀ (f : Nat) (l : List Char), l.length ≤ f → l ≠ [] →
    (∀ c, l.head? = some c → isJsWs c = false) →
    (∀ c, l.getLast? = some c → isJsWs c = false) →
    ∀ w ∈ splitWsRunsGo f l, w ≠ [] ∧ ∀ c ∈ w, isJsWs c = false := by
  intro f
  induction f with
  | zero =>
    intro l h1 hne _ _
    exact absurd (List.eq_nil_of_length_eq_zero (Nat.le_zero.mp h1)) hne
  | succ g ih =>
    intro l h1 hne hhead hlast
    obtain ⟨a, l', rfl⟩ := List.exists_cons_of_ne_nil hne
    have ha : isJsWs a = false := hhead a rfl
    have htw : (a :: l').takeWhile (fun c => !isJsWs c)
        = a :: l'.takeWhile (fun c => !isJsWs c) :=
      List.takeWhile_cons_of_pos (by simp [ha])
    cases hrest : (a :: l').dropWhile (fun c => !isJsWs c) with
    | nil =>
      have hall : ∀ x ∈ a :: l', isJsWs x = false := by
        intro x hx
        have := List.dropWhile_eq_nil_iff.mp hrest x hx
        simpa using this
      have hself : (a :: l').takeWhile (fun c => !isJsWs c) = a :: l' :=
        List.takeWhile_eq_self_iff.mpr (by intro x hx; simp [hall x hx])
      intro w hw
      simp only [splitWsRunsGo, hrest, hself, List.mem_singleton] at hw
      subst hw
      exact ⟨List.cons_ne_nil a l', hall⟩
    | cons r rt =>
      intro w hw
      simp only [splitWsRunsGo, hrest, List.mem_cons] at hw
      rcases hw with rfl | hw
      · refine ⟨by rw [htw]; exact List.cons_ne_nil _ _, ?_⟩
        intro c hc
        have := List.mem_takeWhile_imp hc
        simpa using this
      · cases hnext : (r :: rt).dropWhile isJsWs with
        | nil =>
          exfalso
          have hallws : ∀ x ∈ r :: rt, isJsWs x = true :=
            fun x hx => List.dropWhile_eq_nil_iff.mp hnext x hx
          have hsplit : (a :: l').takeWhile (fun c => !isJsWs c) ++ (r :: rt) = a :: l' := by
            rw [← hrest]
            exact List.takeWhile_append_dropWhile _ _
          obtain ⟨z, hz⟩ := Option.isSome_iff_exists.mp
            (by rw [List.getLast?_isSome]; exact List.cons_ne_nil r rt :
              ((r :: rt).getLast?).isSome)
          have hzl : (a :: l').getLast? = some z := by
            rw [← hsplit, List.getLast?_append_of_ne_nil _ (List.cons_ne_nil r rt)]
            exact hz
          have h1' := hlast z hzl
          have h2' := hallws z (List.mem_of_getLast?_eq_some hz)
          simp [h1'] at h2'
        | cons q qt =>
          have hqws : isJsWs q = false := dwHeadFalse hnext
          have hlt := splitNextLen hrest (List.cons_ne_nil r rt)
          rw [hnext] at hlt
          have hlen2 : (q :: qt).length ≤ g := by
            simp only [List.length_cons] at h1 hlt ⊢
            omega
          have hsuf : ∃ pre, pre ++ (q :: qt) = a :: l' := by
            obtain ⟨p1, hp1⟩ := List.dropWhile_suffix (p := isJsWs) (l := r :: rt)
            obtain ⟨p2, hp2⟩ := List.dropWhile_suffix (p := fun c => !isJsWs c) (l := a :: l')
            rw [hnext] at hp1
            rw [hrest] at hp2
            exact ⟨p2 ++ p1, by rw [List.append_assoc, hp1, hp2]⟩
          obtain ⟨pre, hpre⟩ := hsuf
          have hlast3 : (q :: qt).getLast? = (a :: l').getLast? := by
            rw [← hpre, List.getLast?_append_of_ne_nil _ (List.cons_ne_nil q qt)]
          refine ih (q :: qt) hlen2 (List.cons_ne_nil q qt) ?_ ?_ w ?_
          · intro c hc
            simp only [List.head?_cons, Option.some.injEq] at hc
            subst hc
            exact hqws
          · intro c hc
            exact hlast c (by rw [← hlast3]; exact hc)
          · rw [← hnext]
            exact hw

theorem jsTrimLastNotWs (l : List Char) :
    ∀ c, (jsTrim l).getLast? = some c → isJsWs c = false := by
  intro c hc
  unfold jsTrim at hc
  rw [List.getLast?_reverse] at hc
  have hh := List.head?_dropWhile_not isJsWs ((l.dropWhile isJsWs).reverse)
  rw [hc] at hh
  simpa using hh

theorem jsTrimHeadNotWs (l : List Char) :
    ∀ c, (jsTrim l).head? = some c → isJsWs c = false := by
  intro c hc
  unfold jsTrim at hc
  rw [List.head?_reverse] at hc
  obtain ⟨pre, hpre⟩ :=
    List.dropWhile_suffix (p := isJsWs) (l := (l.dropWhile isJsWs).reverse)
  have hxne : ((l.dropWhile isJsWs).reverse.dropWhile isJsWs) ≠ [] := by
    intro h0
    rw [h0] at hc
    simp at hc
  have hy : ((l.dropWhile isJsWs).reverse).getLast? = some c := by
    rw [← hpre, List.getLast?_append_of_ne_nil _ hxne]
    exact hc
  rw [List.getLast?_reverse] at hy
  have hh := List.head?_dropWhile_not isJsWs l
  rw [hy] at hh
  simpa using hh

theorem contentPiecesBound (text : List Char)
    (hhead : ∀ c, text.head? = some c → isJsWs c = false)
    (hlast : ∀ c, text.getLast? = some c → isJsWs c = false) :
    (splitWsRuns (joinSpace ((splitWsRuns text).take 8000))).length ≤ 8000 := by
  by_cases hn : text = []
  · subst hn
    decide
  · have hgood := splitPiecesGood text.length text le_rfl hn hhead hlast
    have hgood' : ∀ w ∈ (splitWsRuns text).take 8000,
        w ≠ [] ∧ ∀ c ∈ w, isJsWs c = false :=
      fun w hw => hgood w (List.take_subset _ _ hw)
    have hne2 : (splitWsRuns text).take 8000 ≠ [] := by
      obtain ⟨p, pt, hp⟩ := List.exists_cons_of_ne_nil
        (splitWsRunsGoNeNil text.length text)
      rw [show splitWsRuns text = splitWsRunsGo text.length text from rfl, hp,
        List.take_succ_cons]
      exact List.cons_ne_nil _ _
    rw [splitJoinSpace ((splitWsRuns text).take 8000) hne2 hgood',
      List.length_take]
    exact min_le_left _ _

/-! ## A concrete page of 8001 words -/

/-- The text consisting of `n` copies of the word `w` separated by single
spaces. -/
def wRun : Nat → List Char
  | 0 => []
  | 1 => ['w']
  | n + 2 => 'w' :: ' ' :: wRun (n + 1)

theorem wRunChars : ∀ n, ∀ c ∈ wRun n, c = 'w' ∨ c = ' '
  | 0 => by simp [wRun]
  | 1 => by simp [wRun]
  | n + 2 => by
    intro c hc
    simp only [wRun, List.mem_cons] at hc
    rcases hc with rfl | rfl | hc
    · exact .inl rfl
    · exact .inr rfl
    · exact wRunChars (n + 1) c hc

theorem wRunLast : ∀ n, (wRun (n + 1)).getLast? = some 'w'
  | 0 => rfl
  | n + 1 => by
    have h := wRunLast n
    show List.getLast? ('w' :: ' ' :: wRun (n + 1)) = some 'w'
    rw [List.getLast?_cons_cons]
    obtain ⟨c, cs, hcons⟩ := List.exists_cons_of_ne_nil
      (show wRun (n + 1) ≠ [] by cases n <;> simp [wRun])
    rw [hcons, List.getLast?_cons_cons, ← hcons]
    exact h

theorem wRunJoin : ∀ n, joinSpace (List.replicate n ['w']) = wRun n
  | 0 => rfl
  | 1 => rfl
  | n + 2 => by
    have h : List.replicate (n + 2) (['w'] : List Char)
        = ['w'] :: ['w'] :: List.replicate n ['w'] := rfl
    rw [h]
    show 'w' :: ' ' :: joinSpace (['w'] :: List.replicate n ['w']) = wRun (n + 2)
    rw [show (['w'] :: List.replicate n (['w'] : List Char))
      = List.replicate (n + 1) ['w'] from rfl]
    rw [wRunJoin (n + 1)]
    rfl

theorem wRunSplit (n : Nat) :
    splitWsRuns (wRun (n + 1)) = List.replicate (n + 1) ['w'] := by
  rw [← wRunJoin (n + 1)]
  apply splitJoinSpace
  · simp
  · intro w hw
    rw [List.eq_of_mem_replicate hw]
    refine ⟨by simp, ?_⟩
    intro c hc
    simp only [List.mem_singleton] at hc
    subst hc
    rfl

/-! ## No-op lemmas for tag-free text -/

theorem stripBlocksGoNoOpen (op cp : List Char) :
    ∀ (f : Nat) (l : List Char), (∀ c ∈ l, lcChar c ≠ '<') →
      stripBlocksGo ('<' :: op) cp f l = l
  | 0, l => fun _ => by cases l <;> rfl
  | _ + 1, [] => fun _ => rfl
  | f + 1, c :: rest => fun h => by
    have hc : lcChar c ≠ '<' := h c (by simp)
    have hm : matchesCi ('<' :: op) (c :: rest) = false := by
      simp only [matchesCi]
      rw [if_neg (fun he => hc he.symm)]
    simp only [stripBlocksGo, hm, Bool.false_eq_true, if_false]
    rw [stripBlocksGoNoOpen op cp f rest (fun x hx => h x (by simp [hx]))]

theorem stripAngleTagsGoNoLt :
    ∀ (f : Nat) (l : List Char), (∀ c ∈ l, c ≠ '<') → stripAngleTagsGo f l = l
  | 0, l => fun _ => by cases l <;> rfl
  | _ + 1, [] => fun _ => rfl
  | f + 1, c :: rest => fun h => by
    have hc : c ≠ '<' := h c (by simp)
    simp only [stripAngleTagsGo, if_neg hc]
    rw [stripAngleTagsGoNoLt f rest (fun x hx => h x (by simp [hx]))]

theorem collapseWsGoWRun : ∀ f : Nat,
    (∀ n, collapseWsGo f (wRun n) = wRun n) ∧
    (∀ n, collapseWsGo f (' ' :: wRun (n + 1)) = ' ' :: wRun (n + 1)) := by
  intro f
  induction f with
  | zero =>
    refine ⟨fun n => ?_, fun n => ?_⟩
    · cases h : wRun n <;> rfl
    · rfl
  | succ g ih =>
    refine ⟨fun n => ?_, fun n => ?_⟩
    · match n with
      | 0 => rfl
      | 1 =>
        show collapseWsGo (g + 1) ['w'] = ['w']
        simp [collapseWsGo, isJsWs]
      | m + 2 =>
        show collapseWsGo (g + 1) ('w' :: ' ' :: wRun (m + 1))
          = 'w' :: ' ' :: wRun (m + 1)
        simp only [collapseWsGo, show isJsWs 'w' = false from rfl,
          Bool.false_eq_true, if_false]
        rw [ih.2 m]
    · match n with
      | 0 =>
        show collapseWsGo (g + 1) (' ' :: ['w']) = ' ' :: ['w']
        simp only [collapseWsGo, show isJsWs ' ' = true from rfl,
          show isJsWs 'w' = false from rfl, Bool.false_eq_true, if_false, if_true]
        rw [show (['w'] : List Char) = wRun 1 from rfl, ih.1 1]
      | m + 1 =>
        show collapseWsGo (g + 1) (' ' :: 'w' :: ' ' :: wRun (m + 1))
          = ' ' :: 'w' :: ' ' :: wRun (m + 1)
        simp only [collapseWsGo, show isJsWs ' ' = true from rfl,
          show isJsWs 'w' = false from rfl, Bool.false_eq_true, if_false, if_true]
        rw [show ('w' :: ' ' :: wRun (m + 1)) = wRun (m + 2) from rfl, ih.1 (m + 2)]

theorem jsTrimWRun : ∀ n, jsTrim (wRun n) = wRun n := by
  intro n
  match n with
  | 0 => rfl
  | n + 1 =>
    unfold jsTrim
    have h1 : (wRun (n + 1)).dropWhile isJsWs = wRun (n + 1) := by
      cases n <;> rfl
    have h2 : (wRun (n + 1)).reverse.dropWhile isJsWs = (wRun (n + 1)).reverse := by
      cases hrv : (wRun (n + 1)).reverse with
      | nil => rfl
      | cons c cs =>
        have hhd : (wRun (n + 1)).reverse.head? = some 'w' := by
          rw [List.head?_reverse]
          exact wRunLast n
        rw [hrv] at hhd
        simp only [List.head?_cons, Option.some.injEq] at hhd
        subst hhd
        rw [List.dropWhile_cons_of_neg (by simp [isJsWs])]
    rw [h1, h2, List.reverse_reverse]

theorem findTitleNoneNoOpen :
    ∀ l : List Char, (∀ c ∈ l, lcChar c ≠ '<') → findTitle l = none
  | [] => fun _ => rfl
  | c :: rest => fun h => by
    have hc : lcChar c ≠ '<' := h c (by simp)
    have hm : matchTitleAt (c :: rest) = none := by
      unfold matchTitleAt
      have hmc : matchesCi titleOpenPat (c :: rest) = false := by
        simp only [titleOpenPat, matchesCi]
        rw [if_neg (fun he => hc he.symm)]
      simp [hmc]
    simp only [findTitle, hm]
    exact findTitleNoneNoOpen rest (fun x hx => h x (by simp [hx]))

theorem stripTextWRun (n : Nat) : stripText (wRun n) = wRun n := by
  have hchars : ∀ c ∈ wRun n, lcChar c ≠ '<' := by
    intro c hc
    rcases wRunChars n c hc with rfl | rfl <;> decide
  have hchars2 : ∀ c ∈ wRun n, c ≠ '<' := by
    intro c hc
    rcases wRunChars n c hc with rfl | rfl <;> decide
  unfold stripText stripBlocks stripAngleTags collapseWs
  rw [show scriptOpenPat = '<' :: ['s', 'c', 'r', 'i', 'p', 't'] from rfl,
    stripBlocksGoNoOpen _ _ _ _ hchars,
    show styleOpenPat = '<' :: ['s', 't', 'y', 'l', 'e'] from rfl,
    stripBlocksGoNoOpen _ _ _ _ hchars,
    stripAngleTagsGoNoLt _ _ hchars2,
    (collapseWsGoWRun _).1 n]
  exact jsTrimWRun n

/-- Reduction of the fetch stage on an ok response. -/
theorem fetchExecuteOk (env : Env) (url : String)
    (h : (env.http url).ok = true) :
    fetchExecute env url = .ok
      { content := String.mk (joinSpace
          ((splitWsRuns (stripText (env.http url).html.data)).take 8000)),
        title := match findTitle (env.http url).html.data with
          | some captured => String.mk (jsTrim captured)
          | none => url,
        wordCount := (splitWsRuns (stripText (env.http url).html.data)).length,
        url := url } := by
  simp only [fetchExecute, h]
  rfl

def envManyWords : Env :=
  { http := fun _ => { ok := true, status := 200, html := String.mk (wRun 8001) },
    summarizer := okSummarizer,
    critic := fun _ => .ok (.unparseable "x"),
    now := 0 }

theorem fetchExecuteManyWords :
    fetchExecute envManyWords "u"
      = .ok { content := String.mk (wRun 8000), title := "u",
              wordCount := 8001, url := "u" } := by
  have hchars : ∀ c ∈ wRun 8001, lcChar c ≠ '<' := by
    intro c hc
    rcases wRunChars 8001 c hc with rfl | rfl <;> decide
  have hsplit8001 : splitWsRuns (wRun 8001) = List.replicate 8001 ['w'] := by
    have h := wRunSplit 8000
    norm_num at h
    exact h
  have htake : (List.replicate 8001 (['w'] : List Char)).take 8000
      = List.replicate 8000 ['w'] := by
    norm_num
  rw [fetchExecuteOk envManyWords "u" rfl]
  rw [show (envManyWords.http "u").html.data = wRun 8001 from rfl]
  rw [stripTextWRun 8001, findTitleNoneNoOpen _ hchars, hsplit8001, htake,
    wRunJoin 8000, List.length_replicate]

/-- C9: For every successfully fetched page the returned content holds at
most 8000 whitespace-separated words while the returned wordCount counts the
words of the full untruncated stripped text, and there are pages for which
wordCount strictly exceeds the number of words present in the content. -/
theorem content_truncated_wordCount_full :
    (∀ env url f, fetchExecute env url = Except.ok f →
      (splitWsRuns f.content.data).length ≤ 8000 ∧
      f.wordCount = (splitWsRuns (stripText (env.http url).html.data)).length) ∧
    (∃ env url f, fetchExecute env url = Except.ok f ∧
      (splitWsRuns f.content.data).length < f.wordCount) := by
  constructor
  · intro env url f hf
    by_cases hok : (env.http url).ok = true
    · rw [fetchExecuteOk env url hok, Except.ok.injEq] at hf
      subst hf
      refine ⟨?_, rfl⟩
      exact contentPiecesBound (stripText (env.http url).html.data)
        (jsTrimHeadNotWs _) (jsTrimLastNotWs _)
    · have hfalse : (env.http url).ok = false := by
        cases hcase : (env.http url).ok
        · rfl
        · exact absurd hcase hok
      simp [fetchExecute, hfalse] at hf
  · refine ⟨envManyWords, "u", _, fetchExecuteManyWords, ?_⟩
    show (splitWsRuns (String.mk (wRun 8000)).data).length < 8001
    rw [show (String.mk (wRun 8000)).data = wRun 8000 from rfl]
    have h := wRunSplit 7999
    norm_num at h
    rw [h, List.length_replicate]
    norm_num

/-- C9 witness: the general bound applied to a concrete fetched page. -/
theorem content_truncated_wordCount_full_witness :
    (splitWsRuns ((emptyPageFetch "u").content.data)).length ≤ 8000 ∧
    (emptyPageFetch "u").wordCount
      = (splitWsRuns (stripText (envScore8.http "u").html.data)).length :=
  content_truncated_wordCount_full.1 envScore8 "u" (emptyPageFetch "u") rfl

/-- C10: For a successfully fetched page, when the HTML has no parseable
title element the fetch stage returns the request URL as the title, and
otherwise it returns the trimmed text of the first title element; in
particular HTML without any tag opener yields the URL. -/
theorem title_first_match_or_url (env : Env) (url : String)
    (hok : (env.http url).ok = true) :
    ∃ f, fetchExecute env url = .ok f ∧
      (findTitle (env.http url).html.data = none → f.title = url) ∧
      (∀ t, findTitle (env.http url).html.data = some t →
        f.title = String.mk (jsTrim t)) ∧
      ((∀ c ∈ (env.http url).html.data, lcChar c ≠ '<') → f.title = url) := by
  refine ⟨_, fetchExecuteOk env url hok, ?_, ?_, ?_⟩
  · intro h
    simp [h]
  · intro t h
    simp [h]
  · intro h
    simp [findTitleNoneNoOpen _ h]

def titledHtml : String :=
  "<html><head><title> My Page </title></head><body>Hi</body></html>"

def envTitled : Env :=
  { http := fun _ => { ok := true, status := 200, html := titledHtml },
    summarizer := okSummarizer,
    critic := fun _ => .ok (.parsed { score := 8, issues := [], suggestion := "" }),
    now := 0 }

/-- C10 witness: a concrete page whose title element is ` My Page `. -/
theorem title_first_match_or_url_witness :
    ∃ f, fetchExecute envTitled "https://example.com" = .ok f ∧
      f.title = "My Page" := by
  obtain ⟨f, hok, hnone, hsome, hnolt⟩ :=
    title_first_match_or_url envTitled "https://example.com" rfl
  refine ⟨f, hok, ?_⟩
  rw [hsome (" My Page ".data) rfl]
  rfl
